import Mathlib

/-!
Verification development for the Revolt Motors voice-assistant relay.

The repository has three source files with executable logic:

* `src/backend/server.ts` — a WebSocket relay: one upstream Gemini Live
  session per client socket, JSON message validation with zod, and
  forwarding in both directions.
* `src/vite.config.ts` — besides the vite proxy config, the file carries the
  WebSocket frontend `GdmLiveAudio` with the PCM16 encoder
  `float32ToPCM16Base64`, the base64 decoder `base64ToArrayBuffer`, and the
  playback scheduler (`nextStartTime`, `sources`).
* `src/index.tsx` — the direct-to-Gemini frontend whose `onmessage` handler
  blocks responses whose first part text lacks the substring "revolt",
  schedules audio, and clears playback on the `interrupted` flag.

Everything below is a shallow embedding of that code: JavaScript numbers on
the audio path are modelled as exact rationals (plus an explicit NaN
constructor where the code can meet NaN), machine 16-bit conversion is
modelled with explicit mod-2^16 wrapping, and the event-driven relay is
modelled as a step function over an explicit connection state, with the
asynchronous upstream-connect outcome supplied as an oracle on the event.
-/

/-! ## PCM16 codec (from `float32ToPCM16Base64` in src/vite.config.ts)

A JavaScript number on this path is either NaN or an exact value; the code
never produces infinities here (inputs are Float32 audio samples and the
constants are finite), so the model carries NaN explicitly and everything
else as a rational. -/

/-- A JavaScript number as it appears on the audio sample path: NaN or a
finite value modelled as a rational. -/
inductive JsVal
  | nan
  | val (x : ℚ)
deriving DecidableEq

/-- `Math.min(1, s)`: NaN if either argument is NaN. -/
def jsMinOne : JsVal → JsVal
  | .nan => .nan
  | .val x => .val (min 1 x)

/-- `Math.max(-1, s)`: NaN if either argument is NaN. -/
def jsMaxNegOne : JsVal → JsVal
  | .nan => .nan
  | .val x => .val (max (-1) x)

/-- `s < 0` in JavaScript: any comparison with NaN is false. -/
def jsLtZero : JsVal → Bool
  | .nan => false
  | .val x => decide (x < 0)

/-- `s * k` in JavaScript for a finite constant `k`: NaN propagates. -/
def jsScale (k : ℚ) : JsVal → JsVal
  | .nan => .nan
  | .val x => .val (x * k)

/-- Truncation toward zero, the integer conversion JavaScript applies when a
number is stored into an `Int16Array` (after which it is wrapped mod 2^16). -/
def truncZ (q : ℚ) : ℤ := if q < 0 then ⌈q⌉ else ⌊q⌋

/-- Wrap an integer into the signed 16-bit range, as `Int16Array` storage
does (ToInt16: truncate, take mod 2^16, reinterpret as signed). -/
def int16Wrap (i : ℤ) : ℤ := ((i + 32768) % 65536) - 32768

/-- `Int16Array` storage of one JavaScript number: NaN stores 0, a finite
value is truncated toward zero and wrapped into the signed 16-bit range. -/
def toInt16Store : JsVal → ℤ
  | .nan => 0
  | .val x => int16Wrap (truncZ x)

/-- One sample through the loop body of `float32ToPCM16Base64`:
`let s = Math.max(-1, Math.min(1, float32[i])); out[i] = s < 0 ? s * 0x8000 : s * 0x7fff;`. -/
def float32ToPCM16Code (s : JsVal) : ℤ :=
  let c := jsMaxNegOne (jsMinOne s)
  toInt16Store (if jsLtZero c then jsScale 32768 c else jsScale 32767 c)

/-- The two bytes of one stored 16-bit sample, in little-endian order, as
read back through `new Uint8Array(out.buffer)` (the platforms this frontend
targets are little-endian, which is also what the specification asserts). -/
def pcmBytesLE (i : ℤ) : List ℕ := [(i % 65536).toNat % 256, (i % 65536).toNat / 256]

/-- The byte sequence produced by `float32ToPCM16Base64` before the final
`btoa` step: each sample clamped, scaled, stored as little-endian PCM16. -/
def float32ToPCM16Bytes (samples : List JsVal) : List ℕ :=
  samples.flatMap (fun s => pcmBytesLE (float32ToPCM16Code s))

/-- The per-sample mapping as the specification words it: a NaN sample is
treated as 0; any other sample is clamped to [-1, 1] and scaled by 32767
when nonnegative and by 32768 when negative. This is the spec-side
definition for the refinement claim about the encoder. -/
def specPCM16 : JsVal → ℤ
  | .nan => 0
  | .val x =>
    let c := max (-1 : ℚ) (min 1 x)
    if c < 0 then truncZ (c * 32768) else truncZ (c * 32767)

/-! ## Base64 (client `atob`, server `Buffer.from(_, 'base64')`) -/

/-- Value of one character of the standard base64 alphabet. -/
def b64CharVal (c : Char) : Option ℕ :=
  if 'A' ≤ c ∧ c ≤ 'Z' then some (c.toNat - 65)
  else if 'a' ≤ c ∧ c ≤ 'z' then some (c.toNat - 97 + 26)
  else if '0' ≤ c ∧ c ≤ '9' then some (c.toNat - 48 + 52)
  else if c = '+' then some 62
  else if c = '/' then some 63
  else none

/-- ASCII whitespace, which the forgiving-base64 algorithm behind `atob`
removes before validating. -/
def isB64Ws (c : Char) : Bool :=
  c == ' ' || c == '\t' || c == '\n' || c == '\r' || c == '\x0c'

/-- Decode a run of base64 sextets to bytes: full groups of four sextets
give three bytes, a trailing group of three gives two, of two gives one. -/
def sextetsToBytes : List ℕ → List ℕ
  | a :: b :: c :: d :: rest =>
      (a * 4 + b / 16) :: ((b % 16) * 16 + c / 4) :: ((c % 4) * 64 + d) :: sextetsToBytes rest
  | [a, b, c] => [a * 4 + b / 16, (b % 16) * 16 + c / 4]
  | [a, b] => [a * 4 + b / 16]
  | [_] => []
  | [] => []

/-- Drop one trailing padding character. -/
def dropPad1 (cs : List Char) : List Char :=
  if cs.getLast? = some '=' then cs.dropLast else cs

/-- Step 2 of forgiving-base64: when the length is a multiple of four, up to
two trailing `=` characters are removed. -/
def dropPad (cs : List Char) : List Char :=
  if cs.length % 4 = 0 then dropPad1 (dropPad1 cs) else cs

/-- The browser `atob` used by `base64ToArrayBuffer` in src/vite.config.ts,
per the WHATWG forgiving-base64 algorithm: strip ASCII whitespace, strip
permitted padding, then fail (`none`, the thrown InvalidCharacterError) if
any remaining character is outside the alphabet or the length is 1 mod 4. -/
def atobModel (s : String) : Option (List ℕ) :=
  let cs := dropPad (s.toList.filter (fun c => !(isB64Ws c)))
  if cs.all (fun c => (b64CharVal c).isSome) = false then none
  else if cs.length % 4 = 1 then none
  else some (sextetsToBytes (cs.filterMap b64CharVal))

/-- Node `Buffer.from(s, 'base64')` as used in the audio branch of
src/backend/server.ts: lenient decoding that skips every character outside
the base64 alphabet and never fails. -/
def bufferFromBase64 (s : String) : List ℕ :=
  sextetsToBytes (s.toList.filterMap b64CharVal)

/-- True when the string holds a character that is not base64 alphabet, not
padding and not ASCII whitespace — an invalid framing character. -/
def containsBadB64Char (s : String) : Bool :=
  s.toList.any (fun c => !(isB64Ws c) && !(c == '=') && (b64CharVal c).isNone)

/-- Codec failure for structurally invalid input, from the error taxonomy of
the specification. -/
inductive MalformedAudioError
  | malformed
deriving DecidableEq

/-- Raw 16-bit little-endian byte pairs back to signed integers. -/
def bytesToInt16 : List ℕ → List ℤ
  | b0 :: b1 :: rest =>
      (let u := b0 % 256 + 256 * (b1 % 256)
       if u < 32768 then (u : ℤ) else (u : ℤ) - 65536) :: bytesToInt16 rest
  | _ => []

/-- Modelled from the spec: the byte-to-float half of the PCM codec lives in
`utils.ts` (imported by src/index.tsx as `decode` / `decodeAudioData`),
which is absent from the repository snapshot; section 4.1 of the
specification defines it as the inverse mapping scaled by 32768, failing
with `MalformedAudioError` when the byte length is not a multiple of 2. -/
def pcm16Decode (bytes : List ℕ) : Except MalformedAudioError (List ℚ) :=
  if bytes.length % 2 = 0 then
    .ok ((bytesToInt16 bytes).map (fun i => (i : ℚ) / 32768))
  else .error .malformed

/-! ## Playback scheduler (src/vite.config.ts ws audio branch and
src/index.tsx audio branch — the same algorithm in both frontends) -/

/-- One scheduled playback segment: the buffer source node, identified by a
fresh id, its scheduled start time and its duration. -/
structure Seg where
  id : ℕ
  start : ℚ
  dur : ℚ
deriving DecidableEq

/-- Scheduler state: `nextStartTime`, a fresh-id counter standing for object
identity of created buffer source nodes, and the `sources` set. -/
structure Sched where
  nextStartTime : ℚ
  nextId : ℕ
  sources : List Seg
deriving DecidableEq

/-- One enqueue, exactly the audio branch of both frontends:
`nextStartTime = Math.max(nextStartTime, currentTime)`, start the source at
`nextStartTime`, advance it by the buffer duration, add the source to the
set. Returns the new state and the scheduled start time. -/
def enqueue (sc : Sched) (dur now : ℚ) : Sched × ℚ :=
  let t := max sc.nextStartTime now
  ({ nextStartTime := t + dur
     nextId := sc.nextId + 1
     sources := sc.sources ++ [⟨sc.nextId, t, dur⟩] }, t)

/-- The `ended` listener of a source: the segment removes itself from the
set when its playback naturally completes. -/
def segEnded (sc : Sched) (i : ℕ) : Sched :=
  { sc with sources := sc.sources.filter (fun s => s.id != i) }

/-- The interrupted branch of src/index.tsx: stop and delete every source
(the stop call is wrapped in try/catch, so in the model it is simply a state
change), then reset `nextStartTime` to 0. -/
def interruptAll (sc : Sched) : Sched :=
  { sc with sources := [], nextStartTime := 0 }

/-! ## Relay wire messages (src/backend/server.ts) -/

/-- Messages the relay sends to the browser (`ToClient` in the source). -/
inductive ToClient
  | status (message : String)
  | text (t : String)
  | audio (base64 : String) (mimeType : String)
deriving DecidableEq

/-- A validated client message (`FromClient`, the zod discriminated union). -/
inductive FromClient
  | text (t : String)
  | audio (base64 : String)
  | reset
deriving DecidableEq

/-- A JSON value as far as the relay inspects one: a string, an object with
named fields, or anything else. `JSON.parse` with duplicate keys keeps the
last occurrence; the model assumes distinct keys, which every message the
protocol defines has. -/
inductive JValue
  | jstr (s : String)
  | jobj (fields : List (String × JValue))
  | jother

/-- A raw transport frame: either text that fails `JSON.parse`, or a parsed
JSON value. -/
inductive Raw
  | invalidJson
  | json (j : JValue)

/-- `FromClient.parse` on a parsed JSON value: the zod discriminated union
on `type`, where `text` and `base64` are required non-empty strings and any
other shape fails validation. -/
def parseFromClient : JValue → Option FromClient
  | .jobj fs =>
    match fs.lookup "type" with
    | some (.jstr "text") =>
      match fs.lookup "text" with
      | some (.jstr s) => if 1 ≤ s.length then some (.text s) else none
      | _ => none
    | some (.jstr "audio") =>
      match fs.lookup "base64" with
      | some (.jstr s) => if 1 ≤ s.length then some (.audio s) else none
      | _ => none
    | some (.jstr "reset") => some .reset
    | _ => none
  | _ => none

/-- `JSON.parse` followed by `FromClient.parse`, the body of the try block
in the message handler; `none` is the caught exception of either step. -/
def parseRaw : Raw → Option FromClient
  | .invalidJson => none
  | .json j => parseFromClient j

/-- What the relay forwards into the upstream session
(`session.sendRealtimeInput`): text, or an audio blob of decoded bytes. -/
inductive UpInput
  | text (t : String)
  | audio (bytes : List ℕ)
deriving DecidableEq

/-- One part of an upstream model turn: optional text, optional inline data
carrying optional base64 data and optional mime type. -/
structure UpPart where
  text : Option String
  data : Option String
  mimeType : Option String
deriving DecidableEq

/-- The loop body of the upstream `onmessage` callback for one part:
`if (p.text)` sends a text message (JavaScript truthiness: the empty string
does not count), `if (p.inlineData?.data)` sends an audio message with
`p.inlineData.mimeType ?? 'audio/pcm; rate=24000'`. -/
def partToMsgs (p : UpPart) : List ToClient :=
  (match p.text with
   | some t => if t ≠ "" then [.text t] else []
   | none => []) ++
  (match p.data with
   | some d => if d ≠ "" then [.audio d (p.mimeType.getD "audio/pcm; rate=24000")] else []
   | none => [])

/-! ## Relay connection state machine, per-step model (src/backend/server.ts)

One `wss.on('connection')` handler instance. Sessions are identified by a
generation number: `session = some g` is the non-null reference, `nextGen`
counts sessions ever created for this connection, `closedGens` the ones on
which `close()` was called. In this first model the awaited
`client.live.connect` is collapsed into the step that triggers it, with its
outcome supplied as an oracle on the event. That collapse is sound for the
per-handler-step properties proved over this model (each handler body has
no suspension point between its null-session check and its
validation/dispatch, and the Node event loop serialises the callbacks),
but it cannot represent schedules where a connect is still in flight when
another event fires; the refined model `ConnState2` further below adds the
pending-connect state and a separate resolution event for the
session-lifetime claim. -/

structure ConnState where
  wsOpen : Bool
  session : Option ℕ
  nextGen : ℕ
  closedGens : List ℕ
  out : List ToClient
  upstream : List (ℕ × UpInput)
  unhandled : Bool
deriving DecidableEq

/-- `send`: delivers to the browser only while the socket is open
(`ws.readyState === ws.OPEN && ws.send(...)`). -/
def sendMsg (st : ConnState) (m : ToClient) : ConnState :=
  if st.wsOpen = true then { st with out := st.out ++ [m] } else st

/-- Deliver a list of messages one by one through `sendMsg`. -/
def sendAll (st : ConnState) (ms : List ToClient) : ConnState :=
  ms.foldl sendMsg st

/-- `openSession`: returns unchanged if a session exists; otherwise either
connects (allocating a fresh generation and emitting `Session ready`) or
throws — the Boolean in the result records the throw, which the caller may
or may not catch. -/
def openSessionStep (st : ConnState) (ok : Bool) : ConnState × Bool :=
  if st.session.isSome then (st, false)
  else if ok then
    (sendMsg { st with session := some st.nextGen, nextGen := st.nextGen + 1 }
      (.status "Session ready"), false)
  else (st, true)

/-- The connection handler up to the end of its try/catch: a fresh state,
one `openSession` attempt, and `Failed to open session: <reason>` on catch. -/
def initConn (ok : Bool) (reason : String) : ConnState :=
  let st0 : ConnState := ⟨true, none, 0, [], [], [], false⟩
  let r := openSessionStep st0 ok
  if r.2 then sendMsg r.1 (.status ("Failed to open session: " ++ reason)) else r.1

/-- The dispatch on a validated (or failed) parse inside `ws.on('message')`,
reached only when `session` is non-null with generation `g`. On `reset` the
reopen is not inside any try/catch, so a throwing `connect` becomes an
unhandled promise rejection, recorded in `unhandled`. -/
def handleParsed (st : ConnState) (g : ℕ) (p : Option FromClient) (ok2 : Bool) : ConnState :=
  match p with
  | none => sendMsg st (.status "Bad client message")
  | some .reset =>
    let st1 := { st with session := none, closedGens := st.closedGens ++ [g] }
    let r := openSessionStep st1 ok2
    if r.2 then { r.1 with unhandled := true } else r.1
  | some (.text s) => { st with upstream := st.upstream ++ [(g, .text s)] }
  | some (.audio b) => { st with upstream := st.upstream ++ [(g, .audio (bufferFromBase64 b))] }

/-- Events a live connection can receive: a client transport frame (with
the oracle for a reset-triggered reopen), delivery of an upstream message
through the callbacks registered for session generation `g`, and transport
close. -/
inductive REvent
  | clientMsg (raw : Raw) (reopenOk : Bool)
  | upstreamDeliver (g : ℕ) (parts : List UpPart)
  | wsClose

/-- One event against the connection state. The message handler starts with
`if (!session) return`; the upstream callback of session `g` exists once
generation `g` has been created and forwards each part through `send`
without any generation check; `ws.on('close')` runs `session?.close()`
inside try/catch and never errors. -/
def stepConn (st : ConnState) (e : REvent) : ConnState :=
  match e with
  | .clientMsg raw ok2 =>
    if st.wsOpen = true then
      match st.session with
      | none => st
      | some g => handleParsed st g (parseRaw raw) ok2
    else st
  | .upstreamDeliver g parts =>
    if g < st.nextGen then sendAll st (parts.flatMap partToMsgs) else st
  | .wsClose =>
    (match st.session with
     | some g => { st with closedGens := st.closedGens ++ [g], wsOpen := false }
     | none => { st with wsOpen := false })

/-- A whole connection run: accept (with the initial connect outcome), then
the event stream. -/
def runConn (ok : Bool) (reason : String) (evs : List REvent) : ConnState :=
  evs.foldl stepConn (initConn ok reason)

/-- The generations whose upstream session is live: created and not closed. -/
def liveList (st : ConnState) : List ℕ :=
  (List.range st.nextGen).filter (fun g => decide (g ∉ st.closedGens))

/-- The JSON object `{"type":"reset"}`. -/
def rawReset : Raw := .json (.jobj [("type", .jstr "reset")])

/-! ## Direct client message handler (src/index.tsx `initSession` onmessage) -/

/-- Contiguous-sublist test on character lists. -/
def infixBool (needle : List Char) : List Char → Bool
  | [] => needle.isEmpty
  | c :: rest => needle.isPrefixOf (c :: rest) || infixBool needle rest

/-- Case-insensitive substring test, `textResponse.toLowerCase().includes('revolt')`
(the needle is already lower case; `Char.toLower` matches the JavaScript
lower-casing on the ASCII range this gate cares about). -/
def containsRevolt (s : String) : Bool :=
  infixBool "revolt".toList (s.toList.map Char.toLower)

/-- What the handler reads out of one upstream message:
`serverContent?.modelTurn?.parts?.[0]?.text`, the first part inline data
(base64 payload), and the `interrupted` flag. -/
structure LiveMsg where
  firstText : Option String
  firstAudio : Option String
  interrupted : Bool

/-- State touched by the handler: the playback scheduler and the status
line. -/
structure ClientState where
  sched : Sched
  status : String
deriving DecidableEq

/-- Modelled from the spec: the duration `decodeAudioData(decode(d), ctx,
24000, 1)` assigns, with `decode`/`decodeAudioData` living in the missing
`utils.ts` — section 4.1 gives base64-to-bytes and 16-bit samples at the
24 kHz output rate, so duration = sample count / 24000. The exact value is
irrelevant to the theorems below. -/
def audioDuration (d : String) : ℚ :=
  ((((atobModel d).getD []).length / 2 : ℕ) : ℚ) / 24000

/-- The onmessage handler of src/index.tsx: read the first part text (empty
when absent), block the whole message unless it contains "revolt"
case-insensitively, otherwise schedule the first part audio if present and
then, if the message carries the `interrupted` flag, stop and remove every
source and reset `nextStartTime` to 0. `now` is
`outputAudioContext.currentTime` at handling time. -/
def handleLiveMsg (st : ClientState) (m : LiveMsg) (now : ℚ) : ClientState :=
  let textResponse := m.firstText.getD ""
  if containsRevolt textResponse = false then
    { st with status := "Blocked off-topic response" }
  else
    let st1 :=
      match m.firstAudio with
      | some d => { st with sched := (enqueue st.sched (audioDuration d) now).1 }
      | none => st
    if m.interrupted then { st1 with sched := interruptAll st1.sched } else st1

/-- The session-reference invariant of one relay connection: every closed
generation was created, the current session generation was created, and
every created generation other than the current session one has been
closed. -/
def ConnInv (st : ConnState) : Prop :=
  (∀ g ∈ st.closedGens, g < st.nextGen) ∧
  (∀ g, st.session = some g → g < st.nextGen) ∧
  (∀ g, g < st.nextGen → g ∉ st.closedGens → st.session = some g)

/-! ## Relay connection state machine, refined model with pending connects

`server.ts` awaits `client.live.connect` in two places: the initial
`openSession()` call of the connection handler (lines 92 to 96, inside
try/catch, with the message/close listeners registered only after the await
settles) and the reset branch of the message handler (uncaught). While a
connect is in flight the `session` variable is null. If the transport
closes during such a window, `session?.close()` (or, for the initial open,
no close listener at all, since it is not yet registered) runs against a
null reference; when the connect later resolves it assigns a live session
that no code path ever closes. The refined model makes that schedule
representable: the settling of the pending connect is an event of its
own. -/

/-- Which `await client.live.connect` a pending connect belongs to: the
initial open run by the connection handler (failure caught, listeners
registered afterwards) or a reset-triggered reopen (failure uncaught). -/
inductive POpen
  | initial
  | reset
deriving DecidableEq

/-- Refined connection state: `transportOpen` is the socket readyState,
`listenersOn` whether `ws.on('message')` and `ws.on('close')` have been
registered yet (that happens only after the initial open settles), and
`pending` a connect still in flight — during which `session` is null. -/
structure ConnState2 where
  transportOpen : Bool
  listenersOn : Bool
  session : Option ℕ
  pending : Option POpen
  nextGen : ℕ
  closedGens : List ℕ
  out : List ToClient
  upstream : List (ℕ × UpInput)
  unhandled : Bool
deriving DecidableEq

/-- `send` in the refined model: delivers only while the socket is open. -/
def send2 (st : ConnState2) (m : ToClient) : ConnState2 :=
  if st.transportOpen = true then { st with out := st.out ++ [m] } else st

/-- Deliver several messages one by one. -/
def sendAll2 (st : ConnState2) (ms : List ToClient) : ConnState2 :=
  ms.foldl send2 st

/-- The settling of a pending connect of phase `ctx`. On success the
session variable receives the freshly created live session and
`Session ready` is sent (dropped when the socket is no longer open — the
leaking schedule: the session just assigned is live, and no code path ever
closes it). On failure of the initial open the catch block emits
`Failed to open session: <reason>`; on failure of a reset reopen nothing
catches, an unhandled rejection. When the initial open settles either way,
the listeners get registered. -/
def resolveStep (st : ConnState2) (ctx : POpen) (ok : Bool) (reason : String) : ConnState2 :=
  let stL := match ctx with
    | .initial => { st with listenersOn := true }
    | .reset => st
  if ok then
    send2 { stL with session := some stL.nextGen, nextGen := stL.nextGen + 1, pending := none } (.status "Session ready")
  else
    match ctx with
    | .initial =>
      send2 { stL with pending := none }
        (.status ("Failed to open session: " ++ reason))
    | .reset => { stL with pending := none, unhandled := true }

/-- The message dispatch of the refined model, reached with a non-null
session of generation `g`; identical to the per-step model except that the
reset branch now starts a pending reopen instead of resolving it in
place. -/
def handleParsed2 (st : ConnState2) (g : ℕ) (p : Option FromClient) : ConnState2 :=
  match p with
  | none => send2 st (.status "Bad client message")
  | some .reset =>
    { st with session := none, closedGens := st.closedGens ++ [g], pending := some .reset }
  | some (.text t) => { st with upstream := st.upstream ++ [(g, .text t)] }
  | some (.audio b) => { st with upstream := st.upstream ++ [(g, .audio (bufferFromBase64 b))] }

/-- Events of the refined model: the settling of the pending connect is a
separate event, so schedules where the transport closes while a connect is
in flight are representable. -/
inductive REvent2
  | resolve (ok : Bool) (reason : String)
  | clientMsg (raw : Raw)
  | upstreamDeliver (g : ℕ) (parts : List UpPart)
  | wsClose

/-- One event of the refined model. `clientMsg` runs only while the socket
is open and the listeners are registered, and returns early on a null
session (hence during every pending window). `wsClose` flips the socket
state; the close listener (`session?.close()` in try/catch, never erroring)
runs only if it was registered — a close emitted before registration never
replays. A `resolve` with nothing pending is a no-op. -/
def stepConn2 (st : ConnState2) (e : REvent2) : ConnState2 :=
  match e with
  | .resolve ok reason =>
    match st.pending with
    | none => st
    | some ctx => resolveStep st ctx ok reason
  | .clientMsg raw =>
    if st.transportOpen = true ∧ st.listenersOn = true then
      match st.session with
      | none => st
      | some g => handleParsed2 st g (parseRaw raw)
    else st
  | .upstreamDeliver g parts =>
    if g < st.nextGen then sendAll2 st (parts.flatMap partToMsgs) else st
  | .wsClose =>
    if st.transportOpen = true then
      if st.listenersOn = true then
        match st.session with
        | some g => { st with transportOpen := false, closedGens := st.closedGens ++ [g] }
        | none => { st with transportOpen := false }
      else { st with transportOpen := false }
    else st

/-- The start of the connection handler: socket open, listeners not yet
attached, session null, the initial connect already in flight. -/
def initConn2 : ConnState2 := ⟨true, false, none, some .initial, 0, [], [], [], false⟩

/-- A whole connection run of the refined model. -/
def runConn2 (evs : List REvent2) : ConnState2 := evs.foldl stepConn2 initConn2

/-- Live generations of the refined model: created and not closed. -/
def liveList2 (st : ConnState2) : List ℕ :=
  (List.range st.nextGen).filter (fun g => decide (g ∉ st.closedGens))

/-- Refined session invariant: the per-step clauses, plus: while a connect
is pending the session variable is null, and the listeners are registered
unless the initial open is still pending. -/
def ConnInv2 (st : ConnState2) : Prop :=
  (∀ g ∈ st.closedGens, g < st.nextGen) ∧
  (∀ g, st.session = some g → g < st.nextGen) ∧
  (∀ g, g < st.nextGen → g ∉ st.closedGens → st.session = some g) ∧
  (st.pending.isSome = true → st.session = none) ∧
  (st.pending = some POpen.initial ∨ st.listenersOn = true)

theorem sendMsg_eq (st : ConnState) (m : ToClient) (hw : st.wsOpen = true) :
    sendMsg st m = { st with out := st.out ++ [m] } := by
  simp [sendMsg, hw]

theorem sendAll_eq (ms : List ToClient) :
    ∀ st : ConnState, st.wsOpen = true → sendAll st ms = { st with out := st.out ++ ms } := by
  induction ms with
  | nil => intro st hw; simp [sendAll]
  | cons m t ih =>
    intro st hw
    simp only [sendAll, List.foldl_cons]
    rw [sendMsg_eq st m hw]
    have h2 := ih { st with out := st.out ++ [m] } hw
    simp only [sendAll] at h2
    rw [h2]
    rcases st with ⟨w, s, n, c, o, u, x⟩
    simp

theorem inv_sendMsg (st : ConnState) (m : ToClient) (h : ConnInv st) :
    ConnInv (sendMsg st m) := by
  unfold sendMsg
  split
  · exact h
  · exact h

theorem inv_sendAll (ms : List ToClient) :
    ∀ st : ConnState, ConnInv st → ConnInv (sendAll st ms) := by
  induction ms with
  | nil => intro st h; exact h
  | cons m t ih =>
    intro st h
    simp only [sendAll, List.foldl_cons]
    have h2 := ih (sendMsg st m) (inv_sendMsg st m h)
    simpa [sendAll] using h2

theorem handleParsed_reset_ok (st : ConnState) (g : ℕ) :
    handleParsed st g (some .reset) true =
      sendMsg ⟨st.wsOpen, some st.nextGen, st.nextGen + 1, st.closedGens ++ [g],
        st.out, st.upstream, st.unhandled⟩ (.status "Session ready") := rfl

theorem handleParsed_reset_fail (st : ConnState) (g : ℕ) :
    handleParsed st g (some .reset) false =
      ⟨st.wsOpen, none, st.nextGen, st.closedGens ++ [g], st.out, st.upstream, true⟩ := rfl

theorem inv_handleParsed (st : ConnState) (g : ℕ) (p : Option FromClient) (ok2 : Bool)
    (h : ConnInv st) (hs : st.session = some g) : ConnInv (handleParsed st g p ok2) := by
  obtain ⟨h1, h2, h3⟩ := h
  have hg : g < st.nextGen := h2 g hs
  match p with
  | none => exact inv_sendMsg _ _ ⟨h1, h2, h3⟩
  | some (.text s) => exact ⟨h1, h2, h3⟩
  | some (.audio b) => exact ⟨h1, h2, h3⟩
  | some .reset =>
    cases ok2 with
    | true =>
      rw [handleParsed_reset_ok]
      apply inv_sendMsg
      refine ⟨?_, ?_, ?_⟩
      · intro g' hmem
        dsimp only at hmem ⊢
        rcases List.mem_append.1 hmem with hm | hm
        · exact Nat.lt_succ_of_lt (h1 g' hm)
        · have hgg : g' = g := by simpa using hm
          omega
      · intro g' hE
        dsimp only at hE ⊢
        have hgg : st.nextGen = g' := Option.some.inj hE
        omega
      · intro g' hlt hnot
        dsimp only at hlt hnot ⊢
        simp only [List.mem_append, List.mem_singleton, not_or] at hnot
        obtain ⟨hn1, hn2⟩ := hnot
        simp only [Option.some.injEq]
        by_cases hge : g' = st.nextGen
        · exact hge.symm
        · have hlt' : g' < st.nextGen := by omega
          have hthis := h3 g' hlt' hn1
          rw [hs] at hthis
          exact ((hn2 (Option.some.inj hthis).symm).elim : st.nextGen = g')
    | false =>
      rw [handleParsed_reset_fail]
      refine ⟨?_, ?_, ?_⟩
      · intro g' hmem
        dsimp only at hmem ⊢
        rcases List.mem_append.1 hmem with hm | hm
        · exact h1 g' hm
        · have hgg : g' = g := by simpa using hm
          omega
      · intro g' hE
        exact Option.noConfusion hE
      · intro g' hlt hnot
        dsimp only at hlt hnot ⊢
        simp only [List.mem_append, List.mem_singleton, not_or] at hnot
        obtain ⟨hn1, hn2⟩ := hnot
        have hthis := h3 g' hlt hn1
        rw [hs] at hthis
        exact (hn2 (Option.some.inj hthis).symm).elim

theorem stepConn_clientMsg (st : ConnState) (raw : Raw) (ok2 : Bool) :
    stepConn st (.clientMsg raw ok2) =
      if st.wsOpen = true then
        (match st.session with
         | none => st
         | some g => handleParsed st g (parseRaw raw) ok2)
      else st := rfl

theorem stepConn_deliver (st : ConnState) (g : ℕ) (parts : List UpPart) :
    stepConn st (.upstreamDeliver g parts) =
      if g < st.nextGen then sendAll st (parts.flatMap partToMsgs) else st := rfl

theorem stepConn_wsClose (st : ConnState) :
    stepConn st .wsClose =
      (match st.session with
       | some g => { st with closedGens := st.closedGens ++ [g], wsOpen := false }
       | none => { st with wsOpen := false }) := rfl

theorem inv_stepConn (st : ConnState) (e : REvent) (h : ConnInv st) :
    ConnInv (stepConn st e) := by
  match e with
  | .clientMsg raw ok2 =>
    rw [stepConn_clientMsg]
    split
    · cases hsess : st.session with
      | none => exact h
      | some g => exact inv_handleParsed st g (parseRaw raw) ok2 h hsess
    · exact h
  | .upstreamDeliver g parts =>
    rw [stepConn_deliver]
    split
    · exact inv_sendAll _ st h
    · exact h
  | .wsClose =>
    rw [stepConn_wsClose]
    obtain ⟨h1, h2, h3⟩ := h
    cases hsess : st.session with
    | none =>
      refine ⟨h1, ?_, ?_⟩
      · intro g' hE
        exact Option.noConfusion hE
      · intro g' hlt hnot
        have hthis := h3 g' hlt hnot
        rw [hsess] at hthis
        exact hthis
    | some g0 =>
      have hg0 : g0 < st.nextGen := h2 g0 hsess
      refine ⟨?_, ?_, ?_⟩
      · intro g' hmem
        have hmem' : g' ∈ st.closedGens ++ [g0] := hmem
        rcases List.mem_append.1 hmem' with hm | hm
        · exact h1 g' hm
        · have hgg : g' = g0 := by simpa using hm
          show g' < st.nextGen
          omega
      · intro g' hE
        have hgg : g0 = g' := Option.some.inj hE
        show g' < st.nextGen
        omega
      · intro g' hlt hnot
        have hlt' : g' < st.nextGen := hlt
        have hnot' : g' ∉ st.closedGens ++ [g0] := hnot
        simp only [List.mem_append, List.mem_singleton, not_or] at hnot'
        obtain ⟨hn1, hn2⟩ := hnot'
        have hthis := h3 g' hlt' hn1
        rw [hsess] at hthis
        exact hthis

theorem initConn_true (reason : String) :
    initConn true reason = ⟨true, some 0, 1, [], [.status "Session ready"], [], false⟩ := rfl

theorem initConn_false (reason : String) :
    initConn false reason =
      ⟨true, none, 0, [], [.status ("Failed to open session: " ++ reason)], [], false⟩ := rfl

theorem inv_initConn (ok : Bool) (reason : String) : ConnInv (initConn ok reason) := by
  cases ok with
  | true =>
    rw [initConn_true]
    refine ⟨?_, ?_, ?_⟩
    · intro g hg
      simp at hg
    · intro g hE
      have hgg : (0 : ℕ) = g := Option.some.inj hE
      show g < 1
      omega
    · intro g hlt _
      have hlt' : g < 1 := hlt
      have hg : g = 0 := by omega
      subst hg
      rfl
  | false =>
    rw [initConn_false]
    refine ⟨?_, ?_, ?_⟩
    · intro g hg
      simp at hg
    · intro g hE
      exact Option.noConfusion hE
    · intro g hlt _
      have hlt' : g < 0 := hlt
      exact absurd hlt' (Nat.not_lt_zero g)

theorem inv_foldl (evs : List REvent) :
    ∀ st : ConnState, ConnInv st → ConnInv (evs.foldl stepConn st) := by
  induction evs with
  | nil => intro st h; exact h
  | cons e t ih =>
    intro st h
    simp only [List.foldl_cons]
    exact ih _ (inv_stepConn st e h)

theorem inv_runConn (ok : Bool) (reason : String) (evs : List REvent) :
    ConnInv (runConn ok reason evs) :=
  inv_foldl evs _ (inv_initConn ok reason)

theorem mem_liveList {st : ConnState} {g : ℕ} :
    g ∈ liveList st ↔ g < st.nextGen ∧ g ∉ st.closedGens := by
  simp [liveList, List.mem_filter, List.mem_range]

theorem liveList_nodup (st : ConnState) : (liveList st).Nodup :=
  (List.nodup_range _).filter _

theorem length_le_one_of_all_eq {l : List ℕ} (hn : l.Nodup) (a : ℕ) (h : ∀ x ∈ l, x = a) :
    l.length ≤ 1 := by
  match l with
  | [] => simp
  | [x] => simp
  | x :: y :: t =>
    exfalso
    have hx : x = a := h x (by simp)
    have hy : y = a := h y (by simp)
    subst hx
    subst hy
    rcases List.nodup_cons.1 hn with ⟨hna, _⟩
    exact hna (by simp)

theorem live_le_one {st : ConnState} (h : ConnInv st) : (liveList st).length ≤ 1 := by
  obtain ⟨h1, h2, h3⟩ := h
  cases hsess : st.session with
  | none =>
    have hnil : liveList st = [] := by
      rw [List.eq_nil_iff_forall_not_mem]
      intro g hg
      rw [mem_liveList] at hg
      exact Option.noConfusion (hsess ▸ h3 g hg.1 hg.2)
    simp [hnil]
  | some g0 =>
    apply length_le_one_of_all_eq (liveList_nodup st) g0
    intro x hx
    rw [mem_liveList] at hx
    have hthis := h3 x hx.1 hx.2
    rw [hsess] at hthis
    exact (Option.some.inj hthis).symm

theorem liveList_close {st : ConnState} (h : ConnInv st) :
    liveList (stepConn st .wsClose) = [] := by
  obtain ⟨h1, h2, h3⟩ := h
  rw [stepConn_wsClose]
  cases hsess : st.session with
  | none =>
    rw [List.eq_nil_iff_forall_not_mem]
    intro g hg
    rw [mem_liveList] at hg
    dsimp only at hg
    exact Option.noConfusion (hsess ▸ h3 g hg.1 hg.2)
  | some g0 =>
    rw [List.eq_nil_iff_forall_not_mem]
    intro g hg
    rw [mem_liveList] at hg
    dsimp only at hg
    obtain ⟨hlt, hnot⟩ := hg
    simp only [List.mem_append, List.mem_singleton, not_or] at hnot
    obtain ⟨hn1, hn2⟩ := hnot
    have hthis := h3 g hlt hn1
    rw [hsess] at hthis
    exact hn2 (Option.some.inj hthis).symm

/-- C2 counterexample: a concrete run in which the client resets (closing
generation 0 and opening generation 1) and then a message delivered through
the closed generation-0 callbacks is still forwarded to the client — the
output ends with the stale text message even though generation 0 is closed
and the current session is generation 1. This refutes the claim that no
message from the closed prior-generation session reaches the client. -/
theorem c2_counterexample :
    (runConn true "" [.clientMsg rawReset true,
        .upstreamDeliver 0 [⟨some "stale", none, none⟩]]).closedGens = [0]
    ∧ (runConn true "" [.clientMsg rawReset true,
        .upstreamDeliver 0 [⟨some "stale", none, none⟩]]).session = some 1
    ∧ (runConn true "" [.clientMsg rawReset true,
        .upstreamDeliver 0 [⟨some "stale", none, none⟩]]).out
        = [.status "Session ready", .status "Session ready", .text "stale"] :=
  ⟨rfl, rfl, rfl⟩

/-- C2 (amended): the forwarding path of the relay performs no generation
check at all — a message delivered through the callbacks of any created
generation, including one already closed by a reset, is forwarded to the
client in full; nothing in the relay drops prior-generation messages. -/
theorem c2_amended_no_generation_filter (st : ConnState) (g : ℕ) (parts : List UpPart)
    (hg : g < st.nextGen) (_hclosed : g ∈ st.closedGens) (hw : st.wsOpen = true) :
    (stepConn st (.upstreamDeliver g parts)).out = st.out ++ parts.flatMap partToMsgs := by
  rw [stepConn_deliver, if_pos hg, sendAll_eq _ st hw]

/-- Witness for C2 (amended) at a concrete post-reset state: generation 0 is
closed, yet its delivery is appended to the client output. -/
theorem c2_amended_witness :
    (stepConn (runConn true "" [.clientMsg rawReset true])
        (.upstreamDeliver 0 [⟨some "stale", none, none⟩])).out
      = (runConn true "" [.clientMsg rawReset true]).out ++ [ToClient.text "stale"] :=
  c2_amended_no_generation_filter (runConn true "" [.clientMsg rawReset true]) 0
    [⟨some "stale", none, none⟩] (by decide) (by decide) (by decide)

/-- C3 counterexample: when the initial upstream open fails, the failure is
surfaced, but a subsequent reset message leaves the state completely
unchanged — no new open attempt happens (the generation counter stays 0 and
the session stays null), because the message handler returns early whenever
the session reference is null. This refutes the claim that the connection
remains usable for retry via reset. -/
theorem c3_counterexample :
    runConn false "boom" [.clientMsg rawReset true] = runConn false "boom" []
    ∧ (runConn false "boom" []).session = none
    ∧ (runConn false "boom" []).nextGen = 0
    ∧ (runConn false "boom" []).out = [.status "Failed to open session: boom"] :=
  ⟨rfl, rfl, rfl, rfl⟩

/-- C3 (amended): if the initial upstream open fails, the failure is
surfaced to the client as the status `Failed to open session: <reason>` and
the process does not crash (the state is well defined), but the connection
is not usable for retry: with the session reference null, every subsequent
client transport message — including reset — is ignored without any open
attempt. -/
theorem c3_amended_failure_surfaced_no_retry (reason : String) (raw : Raw) (ok2 : Bool) :
    (runConn false reason []).out = [.status ("Failed to open session: " ++ reason)]
    ∧ (runConn false reason []).session = none
    ∧ stepConn (runConn false reason []) (.clientMsg raw ok2) = runConn false reason [] :=
  ⟨rfl, rfl, rfl⟩

/-- C4 counterexample: a transport frame whose JSON fails to parse, received
while the session reference is null (here: right after a failed open), is
dropped with no status at all — the relay does not emit `Bad client
message`, refuting the claim that every malformed message produces exactly
one such status. -/
theorem c4_counterexample :
    runConn false "x" [.clientMsg .invalidJson true] = runConn false "x" []
    ∧ ToClient.status "Bad client message"
        ∉ (runConn false "x" [.clientMsg .invalidJson true]).out :=
  ⟨rfl, by decide⟩

/-- C4 (amended): while an upstream session exists, every received client
transport frame that fails validation — unparseable JSON, unrecognized
type, or a missing or empty required field — produces exactly one
`Bad client message` status and nothing else: the offending message is
dropped (no upstream forwarding), the session is kept and the connection is
not closed (the resulting state differs from the prior one only by the one
appended status). -/
theorem c4_amended_bad_message (st : ConnState) (g : ℕ) (raw : Raw) (ok2 : Bool)
    (hw : st.wsOpen = true) (hs : st.session = some g) (hbad : parseRaw raw = none) :
    stepConn st (.clientMsg raw ok2)
      = { st with out := st.out ++ [.status "Bad client message"] } := by
  rw [stepConn_clientMsg, if_pos hw]
  have hmatch :
      (match st.session with
       | none => st
       | some g' => handleParsed st g' (parseRaw raw) ok2)
        = handleParsed st g (parseRaw raw) ok2 := by
    rw [hs]
  rw [hmatch, hbad]
  exact sendMsg_eq st _ hw

/-- Witness for C4 (amended) at a concrete input: a `text` message whose
required field is the empty string fails the zod validation and yields
exactly the one status. -/
theorem c4_amended_witness :
    stepConn (runConn true "" [])
        (.clientMsg (.json (.jobj [("type", .jstr "text"), ("text", .jstr "")])) true)
      = { runConn true "" [] with
          out := (runConn true "" []).out ++ [ToClient.status "Bad client message"] } :=
  c4_amended_bad_message (runConn true "" [])
    0 (.json (.jobj [("type", .jstr "text"), ("text", .jstr "")])) true rfl rfl rfl

/-- C7: for every upstream model-turn message carrying a list of parts and
delivered to a registered session callback while the socket is open, the
relay forwards the parts independently and in order — the client output is
extended by exactly the concatenation, part by part, of: a text message for
a part carrying (non-empty) text, and an audio message carrying the base64
data and the mime type (defaulted to `audio/pcm; rate=24000`) for a part
carrying inline data; in particular two text parts in one message become
exactly two text messages in that order. -/
theorem c7_parts_forwarded_in_order (st : ConnState) (g : ℕ) (parts : List UpPart)
    (hg : g < st.nextGen) (hw : st.wsOpen = true) :
    (stepConn st (.upstreamDeliver g parts)).out = st.out ++ parts.flatMap partToMsgs
    ∧ (∀ t : String, t ≠ "" → partToMsgs ⟨some t, none, none⟩ = [.text t])
    ∧ (∀ (d : String) (mt : Option String), d ≠ "" →
        partToMsgs ⟨none, some d, mt⟩ = [.audio d (mt.getD "audio/pcm; rate=24000")])
    ∧ (∀ t1 t2 : String, t1 ≠ "" → t2 ≠ "" →
        ([⟨some t1, none, none⟩, ⟨some t2, none, none⟩] : List UpPart).flatMap partToMsgs
          = [.text t1, .text t2]) := by
  refine ⟨?_, ?_, ?_, ?_⟩
  · rw [stepConn_deliver, if_pos hg, sendAll_eq _ st hw]
  · intro t ht
    simp [partToMsgs, ht]
  · intro d mt hd
    simp [partToMsgs, hd]
  · intro t1 t2 h1 h2
    simp [partToMsgs, h1, h2]

/-- Witness for C7 at the concrete two-text-part message of the
specification scenario. -/
theorem c7_witness :
    (stepConn (runConn true "" []) (.upstreamDeliver 0
        [⟨some "Hello", none, none⟩, ⟨some " there", none, none⟩])).out
      = (runConn true "" []).out ++ [ToClient.text "Hello", ToClient.text " there"] :=
  (c7_parts_forwarded_in_order (runConn true "" []) 0
    [⟨some "Hello", none, none⟩, ⟨some " there", none, none⟩] (by decide) (by decide)).1

/-- C5: each enqueue first raises `nextStartTime` to the output clock when
playback has fallen behind (the returned scheduled start is
`max nextStartTime now`), starts the buffer there, advances `nextStartTime`
by the buffer duration and appends the segment to the active set, which the
ended event removes again; consequently, when the next enqueue is issued
no later than the end of the previously scheduled segment, its start equals
the previous start plus the previous duration — a contiguous chain with no
gap and no overlap. -/
theorem c5_scheduler_gap_free (sc : Sched) (d1 n1 d2 n2 : ℚ)
    (hid : ∀ s ∈ sc.sources, s.id < sc.nextId) :
    (enqueue sc d1 n1).2 = max sc.nextStartTime n1
    ∧ (enqueue sc d1 n1).1.nextStartTime = (enqueue sc d1 n1).2 + d1
    ∧ (enqueue sc d1 n1).1.sources
        = sc.sources ++ [⟨sc.nextId, (enqueue sc d1 n1).2, d1⟩]
    ∧ (segEnded (enqueue sc d1 n1).1 sc.nextId).sources = sc.sources
    ∧ (n2 ≤ (enqueue sc d1 n1).2 + d1 →
        (enqueue (enqueue sc d1 n1).1 d2 n2).2 = (enqueue sc d1 n1).2 + d1) := by
  refine ⟨rfl, rfl, rfl, ?_, ?_⟩
  · simp only [segEnded, enqueue, List.filter_append]
    have h1 : sc.sources.filter (fun s => s.id != sc.nextId) = sc.sources := by
      apply List.filter_eq_self.2
      intro s hs
      have hlt := hid s hs
      simp [Nat.ne_of_lt hlt]
    rw [h1]
    simp
  · intro hle
    simp only [enqueue]
    exact max_eq_left hle

/-- Witness for C5 at concrete rationals: the second enqueue, issued before
the first segment ends, starts exactly at the first start plus its
duration, and the ended event removes the enqueued segment again. -/
theorem c5_witness :
    (enqueue (enqueue ⟨0, 0, []⟩ 1 0).1 1 1).2 = (enqueue ⟨0, 0, []⟩ 1 0).2 + 1
    ∧ (segEnded (enqueue ⟨0, 0, []⟩ 1 0).1 0).sources = [] := by
  have h := c5_scheduler_gap_free ⟨0, 0, []⟩ 1 0 1 1 (by simp)
  exact ⟨h.2.2.2.2 (by norm_num [enqueue]), h.2.2.2.1⟩

/-- C6 counterexample: a concrete upstream message carrying the interrupted
flag but no text (the shape of a real interruption notice) reaches the
handler while one segment is active — because the keyword gate runs first
and the message carries no "revolt" text, the handler returns with the
status set to `Blocked off-topic response`, the active set NOT emptied and
`nextStartTime` NOT reset. This refutes the claim that handling an
interrupted-flag message always stops and removes every active segment. -/
theorem c6_counterexample :
    (⟨none, none, true⟩ : LiveMsg).interrupted = true
    ∧ (handleLiveMsg ⟨⟨5, 1, [⟨0, 0, 5⟩]⟩, ""⟩ ⟨none, none, true⟩ 0).sched.sources
        = [⟨0, 0, 5⟩]
    ∧ (handleLiveMsg ⟨⟨5, 1, [⟨0, 0, 5⟩]⟩, ""⟩ ⟨none, none, true⟩ 0).sched.nextStartTime = 5
    ∧ (handleLiveMsg ⟨⟨5, 1, [⟨0, 0, 5⟩]⟩, ""⟩ ⟨none, none, true⟩ 0).status
        = "Blocked off-topic response" :=
  ⟨rfl, rfl, rfl, rfl⟩

/-- C6 (amended): an interrupted-flag message clears playback only when it
passes the keyword gate (its first part text contains "revolt" case
insensitively); in that case every active segment is removed (the set is
left empty) and `nextStartTime` is reset to 0, so the next enqueue anchors
to the current clock time; the clearing operation itself is total (the
per-segment stop is inside try/catch in the source), idempotent, and safe
with zero active segments. -/
theorem c6_amended_interrupt_clears (st : ClientState) (m : LiveMsg) (now : ℚ)
    (hint : m.interrupted = true)
    (hrev : containsRevolt (m.firstText.getD "") = true) :
    (handleLiveMsg st m now).sched.sources = []
    ∧ (handleLiveMsg st m now).sched.nextStartTime = 0
    ∧ (∀ sc : Sched, interruptAll (interruptAll sc) = interruptAll sc)
    ∧ (∀ sc : Sched, (interruptAll sc).sources = [] ∧ (interruptAll sc).nextStartTime = 0) := by
  refine ⟨?_, ?_, fun sc => rfl, fun sc => ⟨rfl, rfl⟩⟩
  · simp [handleLiveMsg, hrev, hint, interruptAll]
  · simp [handleLiveMsg, hrev, hint, interruptAll]

/-- Witness for C6 (amended) at a concrete interrupted message passing the
keyword gate, with one segment active beforehand. -/
theorem c6_amended_witness :
    (handleLiveMsg ⟨⟨5, 1, [⟨0, 0, 5⟩]⟩, ""⟩
        ⟨some "Revolt rules", none, true⟩ 0).sched.sources = []
    ∧ (handleLiveMsg ⟨⟨5, 1, [⟨0, 0, 5⟩]⟩, ""⟩
        ⟨some "Revolt rules", none, true⟩ 0).sched.nextStartTime = 0 := by
  have h := c6_amended_interrupt_clears ⟨⟨5, 1, [⟨0, 0, 5⟩]⟩, ""⟩
    ⟨some "Revolt rules", none, true⟩ 0 rfl (by decide)
  exact ⟨h.1, h.2.1⟩

/-- C10: in the direct client, every upstream message whose first
model-turn part text does not contain "revolt" case-insensitively —
including messages with no text at all, such as audio-only or
interrupted-only turns — makes the handler set the status to
`Blocked off-topic response` and return with the rest of the state
untouched: no audio is scheduled and nothing else changes. -/
theorem c10_offtopic_blocked (st : ClientState) (m : LiveMsg) (now : ℚ)
    (hrev : containsRevolt (m.firstText.getD "") = false) :
    handleLiveMsg st m now = { st with status := "Blocked off-topic response" } := by
  simp [handleLiveMsg, hrev]

/-- Witness for C10 at a concrete message that carries audio and the
interrupted flag but no text: the whole state change is the status line. -/
theorem c10_witness :
    handleLiveMsg ⟨⟨5, 1, [⟨0, 0, 5⟩]⟩, "ok"⟩ ⟨none, some "AAAA", true⟩ 2
      = { (⟨⟨5, 1, [⟨0, 0, 5⟩]⟩, "ok"⟩ : ClientState) with
          status := "Blocked off-topic response" } :=
  c10_offtopic_blocked ⟨⟨5, 1, [⟨0, 0, 5⟩]⟩, "ok"⟩ ⟨none, some "AAAA", true⟩ 2 (by decide)

theorem int16Wrap_eq_self (i : ℤ) (h1 : -32768 ≤ i) (h2 : i ≤ 32767) :
    int16Wrap i = i := by
  unfold int16Wrap
  omega

theorem truncZ_neg_bounds (q : ℚ) (hl : -32768 ≤ q) (hu : q < 0) :
    -32768 ≤ truncZ q ∧ truncZ q ≤ 32767 := by
  unfold truncZ
  rw [if_pos hu]
  constructor
  · have hc : ((-32768 : ℤ) : ℚ) ≤ q := by exact_mod_cast hl
    calc (-32768 : ℤ) = ⌈((-32768 : ℤ) : ℚ)⌉ := (Int.ceil_intCast _).symm
      _ ≤ ⌈q⌉ := Int.ceil_le_ceil hc
  · have h0 : ⌈q⌉ ≤ (0 : ℤ) := Int.ceil_le.2 (by exact_mod_cast hu.le)
    omega

theorem truncZ_nonneg_bounds (q : ℚ) (hl : 0 ≤ q) (hu : q ≤ 32767) :
    0 ≤ truncZ q ∧ truncZ q ≤ 32767 := by
  unfold truncZ
  rw [if_neg (not_lt.2 hl)]
  constructor
  · exact Int.floor_nonneg.2 hl
  · calc ⌊q⌋ ≤ ⌊((32767 : ℤ) : ℚ)⌋ := Int.floor_le_floor (by exact_mod_cast hu)
      _ = 32767 := Int.floor_intCast _

theorem code_val (x : ℚ) :
    float32ToPCM16Code (.val x) =
      (if max (-1 : ℚ) (min 1 x) < 0 then int16Wrap (truncZ (max (-1 : ℚ) (min 1 x) * 32768))
       else int16Wrap (truncZ (max (-1 : ℚ) (min 1 x) * 32767))) := by
  simp only [float32ToPCM16Code, jsMinOne, jsMaxNegOne, jsLtZero, jsScale, toInt16Store]
  by_cases h : max (-1 : ℚ) (min 1 x) < 0
  · simp [h]
  · simp [h]

theorem spec_val (x : ℚ) :
    specPCM16 (.val x) =
      (if max (-1 : ℚ) (min 1 x) < 0 then truncZ (max (-1 : ℚ) (min 1 x) * 32768)
       else truncZ (max (-1 : ℚ) (min 1 x) * 32767)) := rfl

theorem code_eq_spec_sample (s : JsVal) : float32ToPCM16Code s = specPCM16 s := by
  cases s with
  | nan => rfl
  | val x =>
    rw [code_val, spec_val]
    have hcl : (-1 : ℚ) ≤ max (-1 : ℚ) (min 1 x) := le_max_left _ _
    have hcu : max (-1 : ℚ) (min 1 x) ≤ 1 := max_le (by norm_num) (min_le_left _ _)
    by_cases h : max (-1 : ℚ) (min 1 x) < 0
    · rw [if_pos h, if_pos h]
      have hb := truncZ_neg_bounds (max (-1 : ℚ) (min 1 x) * 32768)
        (by nlinarith) (by nlinarith)
      exact int16Wrap_eq_self _ hb.1 hb.2
    · rw [if_neg h, if_neg h]
      push_neg at h
      have hb := truncZ_nonneg_bounds (max (-1 : ℚ) (min 1 x) * 32767)
        (by nlinarith) (by nlinarith)
      exact int16Wrap_eq_self _ (by omega) hb.2

/-- C8: the encoder is the specification mapping sample by sample — for
every finite sample sequence, the produced byte stream is exactly: for each
sample, clamp to [-1, 1] (a NaN sample becoming 0), scale a nonnegative
clamped value by 32767 and a negative one by 32768, truncate, and write the
result as a little-endian signed 16-bit pair. The encoder is a total
function (deterministic, no failure mode). -/
theorem c8_encode_matches_spec (samples : List JsVal) :
    float32ToPCM16Bytes samples = samples.flatMap (fun s => pcmBytesLE (specPCM16 s)) := by
  unfold float32ToPCM16Bytes
  induction samples with
  | nil => rfl
  | cons s t ih =>
    simp only [List.flatMap_cons, code_eq_spec_sample s, ih]

theorem mem_dropPad1 {c : Char} {cs : List Char} (hm : c ∈ cs) (hne : c ≠ '=') :
    c ∈ dropPad1 cs := by
  unfold dropPad1
  split
  · rename_i hlast
    have hnonnil : cs ≠ [] := by
      intro hnil
      subst hnil
      simp at hlast
    have hsplit := List.dropLast_append_getLast hnonnil
    have hlasteq : cs.getLast hnonnil = '=' := by
      have hq := List.getLast?_eq_getLast cs hnonnil
      rw [hq] at hlast
      exact Option.some.inj hlast
    rw [← hsplit] at hm
    rcases List.mem_append.1 hm with hmm | hmm
    · exact hmm
    · exfalso
      apply hne
      rw [← hlasteq]
      simpa using hmm
  · exact hm

theorem mem_dropPad {c : Char} {cs : List Char} (hm : c ∈ cs) (hne : c ≠ '=') :
    c ∈ dropPad cs := by
  unfold dropPad
  split
  · exact mem_dropPad1 (mem_dropPad1 hm hne) hne
  · exact hm

theorem atob_fails_on_bad_char {s : String} (hbad : containsBadB64Char s = true) :
    atobModel s = none := by
  obtain ⟨c, hc, hp⟩ := List.any_eq_true.1 hbad
  simp only [Bool.and_eq_true, Bool.not_eq_true'] at hp
  obtain ⟨⟨hws, hpad⟩, hval⟩ := hp
  have hne : c ≠ '=' := by
    intro heq
    subst heq
    simp at hpad
  have hm1 : c ∈ s.toList.filter (fun c => !(isB64Ws c)) :=
    List.mem_filter.2 ⟨hc, by simp [hws]⟩
  have hm2 : c ∈ dropPad (s.toList.filter (fun c => !(isB64Ws c))) := mem_dropPad hm1 hne
  have hall : (dropPad (s.toList.filter (fun c => !(isB64Ws c)))).all
      (fun c => (b64CharVal c).isSome) = false := by
    rcases Bool.eq_false_or_eq_true ((dropPad (s.toList.filter (fun c => !(isB64Ws c)))).all
        (fun c => (b64CharVal c).isSome)) with ht | hf
    · exfalso
      have hsome := List.all_eq_true.1 ht c hm2
      rw [Option.isNone_iff_eq_none.1 hval] at hsome
      simp at hsome
    · exact hf
  unfold atobModel
  simp only [hall]
  rfl

/-- C9 counterexample: the base64 payload AAAA$AAAA carries the invalid
framing character $. The client-side decode (atob) rejects it, but the
relay audio branch — the other decoding path the claim covers — accepts it
through the lenient Node Buffer.from decoding and silently forwards six
bytes into the upstream session with no error and no status, refuting the
claim that the base64 text-framing decode fails on invalid framing
characters rather than producing bytes silently. -/
theorem c9_counterexample :
    atobModel "AAAA$AAAA" = none
    ∧ (runConn true "" [.clientMsg (.json (.jobj [("type", .jstr "audio"),
        ("base64", .jstr "AAAA$AAAA")])) true]).upstream
        = [(0, UpInput.audio [0, 0, 0, 0, 0, 0])]
    ∧ (runConn true "" [.clientMsg (.json (.jobj [("type", .jstr "audio"),
        ("base64", .jstr "AAAA$AAAA")])) true]).out = [.status "Session ready"] :=
  ⟨rfl, rfl, rfl⟩

/-- C9 (amended): the client-side base64 decode (atob) fails on every input
holding an invalid framing character, and the byte-to-float decode
(modelled from the spec, its source being outside the snapshot) fails with
`MalformedAudioError` whenever the byte length is odd; the server-side
audio branch, however, decodes base64 leniently and never fails (see the
counterexample). -/
theorem c9_amended_decode_failures (s : String) (bytes : List ℕ) :
    (containsBadB64Char s = true → atobModel s = none)
    ∧ (bytes.length % 2 = 1 → pcm16Decode bytes = Except.error .malformed) := by
  constructor
  · exact atob_fails_on_bad_char
  · intro hodd
    unfold pcm16Decode
    rw [if_neg (by omega)]

/-- Witness for C9 (amended) at concrete inputs: the one-character string $
and the single byte 0. -/
theorem c9_amended_witness :
    atobModel "$" = none ∧ pcm16Decode [0] = Except.error .malformed :=
  ⟨(c9_amended_decode_failures "$" [0]).1 (by decide),
   (c9_amended_decode_failures "$" [0]).2 (by decide)⟩

theorem stepConn2_resolve_eq (st : ConnState2) (ok : Bool) (reason : String) :
    stepConn2 st (.resolve ok reason) =
      (match st.pending with
       | none => st
       | some ctx => resolveStep st ctx ok reason) := rfl

theorem stepConn2_clientMsg_eq (st : ConnState2) (raw : Raw) :
    stepConn2 st (.clientMsg raw) =
      if st.transportOpen = true ∧ st.listenersOn = true then
        (match st.session with
         | none => st
         | some g => handleParsed2 st g (parseRaw raw))
      else st := rfl

theorem stepConn2_deliver_eq (st : ConnState2) (g : ℕ) (parts : List UpPart) :
    stepConn2 st (.upstreamDeliver g parts) =
      if g < st.nextGen then sendAll2 st (parts.flatMap partToMsgs) else st := rfl

theorem stepConn2_wsClose_eq (st : ConnState2) :
    stepConn2 st .wsClose =
      (if st.transportOpen = true then
        if st.listenersOn = true then
          (match st.session with
           | some g => { st with transportOpen := false, closedGens := st.closedGens ++ [g] }
           | none => { st with transportOpen := false })
        else { st with transportOpen := false }
      else st) := rfl

theorem resolveStep_initial_ok (st : ConnState2) (r : String) :
    resolveStep st .initial true r =
      send2 ⟨st.transportOpen, true, some st.nextGen, none, st.nextGen + 1,
        st.closedGens, st.out, st.upstream, st.unhandled⟩ (.status "Session ready") := rfl

theorem resolveStep_reset_ok (st : ConnState2) (r : String) :
    resolveStep st .reset true r =
      send2 ⟨st.transportOpen, st.listenersOn, some st.nextGen, none, st.nextGen + 1,
        st.closedGens, st.out, st.upstream, st.unhandled⟩ (.status "Session ready") := rfl

theorem resolveStep_initial_fail (st : ConnState2) (r : String) :
    resolveStep st .initial false r =
      send2 ⟨st.transportOpen, true, st.session, none, st.nextGen,
        st.closedGens, st.out, st.upstream, st.unhandled⟩
        (.status ("Failed to open session: " ++ r)) := rfl

theorem resolveStep_reset_fail (st : ConnState2) (r : String) :
    resolveStep st .reset false r =
      ⟨st.transportOpen, st.listenersOn, st.session, none, st.nextGen,
        st.closedGens, st.out, st.upstream, true⟩ := rfl

theorem inv2_send2 (st : ConnState2) (m : ToClient) (h : ConnInv2 st) :
    ConnInv2 (send2 st m) := by
  unfold send2
  split
  · exact h
  · exact h

theorem inv2_sendAll2 (ms : List ToClient) :
    ∀ st : ConnState2, ConnInv2 st → ConnInv2 (sendAll2 st ms) := by
  induction ms with
  | nil => intro st h; exact h
  | cons m t ih =>
    intro st h
    simp only [sendAll2, List.foldl_cons]
    have h2 := ih (send2 st m) (inv2_send2 st m h)
    simpa [sendAll2] using h2

theorem inv2_handleParsed2 (st : ConnState2) (g : ℕ) (p : Option FromClient)
    (h : ConnInv2 st) (hs : st.session = some g) (hl : st.listenersOn = true) :
    ConnInv2 (handleParsed2 st g p) := by
  obtain ⟨h1, h2, h3, h4, h5⟩ := h
  have hg : g < st.nextGen := h2 g hs
  match p with
  | none => exact inv2_send2 _ _ ⟨h1, h2, h3, h4, h5⟩
  | some (.text t) => exact ⟨h1, h2, h3, h4, h5⟩
  | some (.audio b) => exact ⟨h1, h2, h3, h4, h5⟩
  | some .reset =>
    refine ⟨?_, ?_, ?_, ?_, ?_⟩
    · intro g' hmem
      have hmem' : g' ∈ st.closedGens ++ [g] := hmem
      rcases List.mem_append.1 hmem' with hm | hm
      · exact h1 g' hm
      · have hgg : g' = g := by simpa using hm
        show g' < st.nextGen
        omega
    · intro g' hE
      exact Option.noConfusion hE
    · intro g' hlt hnot
      have hlt' : g' < st.nextGen := hlt
      have hnot' : g' ∉ st.closedGens ++ [g] := hnot
      simp only [List.mem_append, List.mem_singleton, not_or] at hnot'
      obtain ⟨hn1, hn2⟩ := hnot'
      have hthis := h3 g' hlt' hn1
      rw [hs] at hthis
      exact (hn2 (Option.some.inj hthis).symm).elim
    · intro _
      rfl
    · right
      exact hl

theorem inv2_resolveStep (st : ConnState2) (ctx : POpen) (ok : Bool) (reason : String)
    (h : ConnInv2 st) (hp : st.pending = some ctx) :
    ConnInv2 (resolveStep st ctx ok reason) := by
  obtain ⟨h1, h2, h3, h4, h5⟩ := h
  have hsess : st.session = none := h4 (by rw [hp]; rfl)
  have hfresh : ∀ g, g < st.nextGen → g ∉ st.closedGens → False := by
    intro g hlt hnot
    have hthis := h3 g hlt hnot
    rw [hsess] at hthis
    exact Option.noConfusion hthis
  cases ctx with
  | initial =>
    cases ok with
    | true =>
      rw [resolveStep_initial_ok]
      apply inv2_send2
      refine ⟨?_, ?_, ?_, ?_, ?_⟩
      · intro g hmem
        have hm : g ∈ st.closedGens := hmem
        have := h1 g hm
        show g < st.nextGen + 1
        omega
      · intro g hE
        have hgg : st.nextGen = g := Option.some.inj hE
        show g < st.nextGen + 1
        omega
      · intro g hlt hnot
        have hlt' : g < st.nextGen + 1 := hlt
        have hnot' : g ∉ st.closedGens := hnot
        show some st.nextGen = some g
        by_cases hge : g = st.nextGen
        · rw [hge]
        · exact absurd (hfresh g (by omega) hnot') id
      · intro hpend
        have hx : (none : Option POpen).isSome = true := hpend
        simp at hx
      · right
        rfl
    | false =>
      rw [resolveStep_initial_fail]
      apply inv2_send2
      refine ⟨h1, h2, h3, ?_, ?_⟩
      · intro hpend
        have hx : (none : Option POpen).isSome = true := hpend
        simp at hx
      · right
        rfl
  | reset =>
    have hlis : st.listenersOn = true := by
      rcases h5 with h5l | h5r
      · rw [hp] at h5l
        have hx : POpen.reset = POpen.initial := Option.some.inj h5l
        exact POpen.noConfusion hx
      · exact h5r
    cases ok with
    | true =>
      rw [resolveStep_reset_ok]
      apply inv2_send2
      refine ⟨?_, ?_, ?_, ?_, ?_⟩
      · intro g hmem
        have hm : g ∈ st.closedGens := hmem
        have := h1 g hm
        show g < st.nextGen + 1
        omega
      · intro g hE
        have hgg : st.nextGen = g := Option.some.inj hE
        show g < st.nextGen + 1
        omega
      · intro g hlt hnot
        have hlt' : g < st.nextGen + 1 := hlt
        have hnot' : g ∉ st.closedGens := hnot
        show some st.nextGen = some g
        by_cases hge : g = st.nextGen
        · rw [hge]
        · exact absurd (hfresh g (by omega) hnot') id
      · intro hpend
        have hx : (none : Option POpen).isSome = true := hpend
        simp at hx
      · right
        exact hlis
    | false =>
      rw [resolveStep_reset_fail]
      refine ⟨h1, h2, h3, ?_, ?_⟩
      · intro hpend
        have hx : (none : Option POpen).isSome = true := hpend
        simp at hx
      · right
        exact hlis

theorem inv2_stepConn2 (st : ConnState2) (e : REvent2) (h : ConnInv2 st) :
    ConnInv2 (stepConn2 st e) := by
  match e with
  | .resolve ok reason =>
    rw [stepConn2_resolve_eq]
    cases hp : st.pending with
    | none => exact h
    | some ctx => exact inv2_resolveStep st ctx ok reason h hp
  | .clientMsg raw =>
    rw [stepConn2_clientMsg_eq]
    split
    · rename_i hcond
      cases hsess : st.session with
      | none => exact h
      | some g => exact inv2_handleParsed2 st g (parseRaw raw) h hsess hcond.2
    · exact h
  | .upstreamDeliver g parts =>
    rw [stepConn2_deliver_eq]
    split
    · exact inv2_sendAll2 _ st h
    · exact h
  | .wsClose =>
    rw [stepConn2_wsClose_eq]
    obtain ⟨h1, h2, h3, h4, h5⟩ := h
    split
    · split
      · cases hsess : st.session with
        | some g =>
          have hg : g < st.nextGen := h2 g hsess
          refine ⟨?_, ?_, ?_, ?_, ?_⟩
          · intro g' hmem
            have hmem' : g' ∈ st.closedGens ++ [g] := hmem
            rcases List.mem_append.1 hmem' with hm | hm
            · exact h1 g' hm
            · have hgg : g' = g := by simpa using hm
              show g' < st.nextGen
              omega
          · intro g' hE
            have hgg : g = g' := Option.some.inj hE
            show g' < st.nextGen
            omega
          · intro g' hlt hnot
            have hlt' : g' < st.nextGen := hlt
            have hnot' : g' ∉ st.closedGens ++ [g] := hnot
            simp only [List.mem_append, List.mem_singleton, not_or] at hnot'
            obtain ⟨hn1, hn2⟩ := hnot'
            have hthis := h3 g' hlt' hn1
            rw [hsess] at hthis
            exact hthis
          · intro hpend
            have hx := h4 hpend
            rw [hsess] at hx
            exact hx
          · exact h5
        | none =>
          refine ⟨h1, ?_, ?_, ?_, h5⟩
          · intro g' hE
            exact Option.noConfusion hE
          · intro g' hlt hnot
            have hthis := h3 g' hlt hnot
            rw [hsess] at hthis
            exact hthis
          · intro _
            rfl
      · exact ⟨h1, h2, h3, h4, h5⟩
    · exact ⟨h1, h2, h3, h4, h5⟩

theorem inv2_initConn2 : ConnInv2 initConn2 := by
  refine ⟨?_, ?_, ?_, ?_, ?_⟩
  · intro g hg
    simp [initConn2] at hg
  · intro g hE
    exact Option.noConfusion hE
  · intro g hlt _
    have hlt' : g < 0 := hlt
    exact absurd hlt' (Nat.not_lt_zero g)
  · intro _
    rfl
  · left
    rfl

theorem inv2_foldl (evs : List REvent2) :
    ∀ st : ConnState2, ConnInv2 st → ConnInv2 (evs.foldl stepConn2 st) := by
  induction evs with
  | nil => intro st h; exact h
  | cons e t ih =>
    intro st h
    simp only [List.foldl_cons]
    exact ih _ (inv2_stepConn2 st e h)

theorem inv2_runConn2 (evs : List REvent2) : ConnInv2 (runConn2 evs) :=
  inv2_foldl evs _ inv2_initConn2

theorem mem_liveList2 {st : ConnState2} {g : ℕ} :
    g ∈ liveList2 st ↔ g < st.nextGen ∧ g ∉ st.closedGens := by
  simp [liveList2, List.mem_filter, List.mem_range]

theorem liveList2_nodup (st : ConnState2) : (liveList2 st).Nodup :=
  (List.nodup_range _).filter _

theorem live_le_one2 {st : ConnState2} (h : ConnInv2 st) : (liveList2 st).length ≤ 1 := by
  obtain ⟨h1, h2, h3, h4, h5⟩ := h
  cases hsess : st.session with
  | none =>
    have hnil : liveList2 st = [] := by
      rw [List.eq_nil_iff_forall_not_mem]
      intro g hg
      rw [mem_liveList2] at hg
      exact Option.noConfusion (hsess ▸ h3 g hg.1 hg.2)
    simp [hnil]
  | some g0 =>
    apply length_le_one_of_all_eq (liveList2_nodup st) g0
    intro x hx
    rw [mem_liveList2] at hx
    have hthis := h3 x hx.1 hx.2
    rw [hsess] at hthis
    exact (Option.some.inj hthis).symm

theorem liveList2_close_of_no_pending {st : ConnState2} (h : ConnInv2 st)
    (hp : st.pending = none) (ht : st.transportOpen = true) :
    liveList2 (stepConn2 st .wsClose) = [] := by
  obtain ⟨h1, h2, h3, h4, h5⟩ := h
  have hl : st.listenersOn = true := by
    rcases h5 with h5l | h5r
    · rw [hp] at h5l
      exact Option.noConfusion h5l
    · exact h5r
  rw [stepConn2_wsClose_eq, if_pos ht, if_pos hl]
  cases hsess : st.session with
  | none =>
    rw [List.eq_nil_iff_forall_not_mem]
    intro g hg
    rw [mem_liveList2] at hg
    have hlt : g < st.nextGen := hg.1
    have hnot : g ∉ st.closedGens := hg.2
    have hthis := h3 g hlt hnot
    rw [hsess] at hthis
    exact Option.noConfusion hthis
  | some g0 =>
    rw [List.eq_nil_iff_forall_not_mem]
    intro g hg
    rw [mem_liveList2] at hg
    have hlt : g < st.nextGen := hg.1
    have hnot : g ∉ st.closedGens ++ [g0] := hg.2
    simp only [List.mem_append, List.mem_singleton, not_or] at hnot
    obtain ⟨hn1, hn2⟩ := hnot
    have hthis := h3 g hlt hn1
    rw [hsess] at hthis
    exact hn2 (Option.some.inj hthis).symm

/-- C1 counterexample: a schedule of the refined model in which the initial
connect resolves (session generation 0, listeners on), the client resets
(generation 0 closed, a reopen connect now in flight), the transport then
closes while that connect is pending (the close listener runs
`session?.close()` on the null reference), and finally the in-flight
connect resolves — assigning a live session (generation 1) after the
transport is closed. The final state has the transport closed yet one live
generation, and a further close event is the identity (the socket close
cannot refire), so no code path ever tears generation 1 down. This refutes
the claim that the transport-close teardown ties the session lifetime to
the transport connection. -/
theorem c1_counterexample :
    (runConn2 [.resolve true "", .clientMsg rawReset, .wsClose,
        .resolve true ""]).transportOpen = false
    ∧ (runConn2 [.resolve true "", .clientMsg rawReset, .wsClose,
        .resolve true ""]).session = some 1
    ∧ liveList2 (runConn2 [.resolve true "", .clientMsg rawReset, .wsClose,
        .resolve true ""]) = [1]
    ∧ stepConn2 (runConn2 [.resolve true "", .clientMsg rawReset, .wsClose,
        .resolve true ""]) .wsClose
        = runConn2 [.resolve true "", .clientMsg rawReset, .wsClose, .resolve true ""] :=
  ⟨rfl, rfl, by decide, rfl⟩

/-- C1 (amended): over every schedule of the refined model — pending
connects, their resolutions, client messages, upstream deliveries and the
transport close in any order — at most one live upstream session exists at
any instant (a fresh generation is created only at a connect resolution,
with the session reference null from the moment the previous generation
was closed and discarded); and whenever the transport closes with no
connect in flight, the close listener tears the session down completely:
no generation stays live. A connect still in flight at the close, however,
resolves afterwards into a live session nothing closes (see the
counterexample), so the lifetime tie to the transport holds only outside
pending-open windows. -/
theorem c1_amended_single_session (evs : List REvent2) :
    (liveList2 (runConn2 evs)).length ≤ 1
    ∧ ((runConn2 evs).pending = none → (runConn2 evs).transportOpen = true →
        liveList2 (stepConn2 (runConn2 evs) .wsClose) = []) :=
  ⟨live_le_one2 (inv2_runConn2 evs),
   fun hp ht => liveList2_close_of_no_pending (inv2_runConn2 evs) hp ht⟩

/-- Witness for C1 (amended) at a concrete schedule with no pending
connect at close time: after the initial open resolves, the transport
close leaves no generation live. -/
theorem c1_amended_witness :
    liveList2 (stepConn2 (runConn2 [REvent2.resolve true ""]) REvent2.wsClose) = [] :=
  (c1_amended_single_session [REvent2.resolve true ""]).2 rfl rfl
